import Mathlib

set_option maxHeartbeats 1000000

/- Shallow embedding of the perf-agent causality-tracking engine.
   The authoritative source is the richer generation of the design
   (src/unnamed/part_000, class PerfAgent); src/lib/index.js is the earlier
   generation of the same engine.  JS Maps keyed by async ids are embedded
   as functions into Option, JS Sets as Boolean-valued functions, the
   high-resolution clock as an explicit nanosecond timestamp passed to each
   hook, and subscriber callbacks as opaque identities whose behaviour
   (the error a call throws, if any) is an environment parameter. -/

/-- Runtime-assigned identifier of one asynchronous operation
    (the asyncId handed to each async_hooks lifecycle hook). -/
abbrev AsyncId := Nat

/-- One captured stack location, as stored by the Frame class of
    src/unnamed/part_000 (the flag bit mask plus the copied callsite data). -/
structure Frame where
  mask : Nat
  columnNumber : Nat
  fileName : String
  functionName : String
  lineNumber : Nat
  methodName : String
  typeName : String
  toStringRep : String
  deriving DecidableEq

/-- A JS Map keyed by AsyncId, embedded as a function into Option. -/
def Table (V : Type) : Type := AsyncId → Option V

def Table.empty {V : Type} : Table V := fun _ => none

def Table.get {V : Type} (m : Table V) (k : AsyncId) : Option V := m k

def Table.set {V : Type} (m : Table V) (k : AsyncId) (v : V) : Table V :=
  fun x => if x = k then some v else m x

def Table.delete {V : Type} (m : Table V) (k : AsyncId) : Table V :=
  fun x => if x = k then none else m x

def Table.has {V : Type} (m : Table V) (k : AsyncId) : Bool := (m k).isSome

/-- The JS Set this._currentSkipList, embedded as a Boolean-valued function. -/
def SkipSet : Type := AsyncId → Bool

def SkipSet.empty : SkipSet := fun _ => false

def SkipSet.add (s : SkipSet) (k : AsyncId) : SkipSet :=
  fun x => if x = k then true else s x

def SkipSet.delete (s : SkipSet) (k : AsyncId) : SkipSet :=
  fun x => if x = k then false else s x

def SkipSet.has (s : SkipSet) (k : AsyncId) : Bool := s k

/-- One entry of this._flowGraph (the FlowGraphNode typedef). -/
structure FlowGraphNode where
  asyncId : AsyncId
  followsAsyncId : AsyncId
  stack : List Frame
  triggerAsyncId : AsyncId
  type : String
  deriving DecidableEq

/-- The event handed to onBlocked subscribers: elapsed nanoseconds and the
    ordered list of causal stack segments, newest first. -/
structure BlockedEvent where
  duration : Nat
  stackSegs : List (List Frame)
  deriving DecidableEq

/-- Errors a JS call can throw in the embedded fragment: the TypeError the
    engine raises itself, or an arbitrary error thrown by consumer code. -/
inductive JsError where
  | typeError
  | userError (code : Nat)
  deriving DecidableEq

/-- Values stored in the per-operation context-local state. -/
inductive JsVal where
  | undef
  | num (n : Nat)
  | str (s : String)
  deriving DecidableEq

/-- Identity of a registered subscriber callback (JS function identity). -/
abbrev CallbackId := Nat

/-- Behaviour of the subscriber callbacks: the error a given callback throws
    on a given event, or none when it returns normally. -/
def CallbackEnv : Type := CallbackId → BlockedEvent → Option JsError

/-- invokeCallbacks(callbacks, ...args): a plain for-of loop calling each
    callback in order.  There is no try/catch, so a throw leaves the loop at
    once and propagates.  Returns the callbacks actually invoked, in order,
    together with the propagated error, if any. -/
def invokeCallbacks (env : CallbackEnv) (callbacks : List CallbackId)
    (event : BlockedEvent) : List CallbackId × Option JsError :=
  match callbacks with
  | [] => ([], none)
  | cb :: rest =>
    match env cb event with
    | some e => ([cb], some e)
    | none =>
      let r := invokeCallbacks env rest event
      (cb :: r.1, r.2)

/-- removeCallback(callbacks, cb): indexOf plus splice removes the first
    occurrence of cb and does nothing when cb is absent. -/
def removeCallback (callbacks : List CallbackId) (cb : CallbackId) :
    List CallbackId :=
  match callbacks with
  | [] => []
  | c :: rest => if c = cb then rest else c :: removeCallback rest cb

/-- NS_PER_MS: the constructor stores options.threshold (milliseconds)
    multiplied by this factor, i.e. in nanoseconds. -/
def NS_PER_MS : Nat := 1000000

/-- The mutable fields of one PerfAgent instance. -/
structure AgentState where
  threshold : Nat
  currentSkipList : SkipSet
  flowGraph : Table FlowGraphNode
  onBlockedCallbacks : List CallbackId
  skipContext : Bool
  state : Table (List (String × JsVal))
  timings : Table Nat
  useAsyncStackTraces : Bool
  depth : Int

/-- The PerfAgent constructor after its option validation: threshold is given
    in milliseconds and stored in nanoseconds, every table starts empty. -/
def mkAgent (thresholdMs : Nat) (captureAsyncStackTraces : Bool) : AgentState :=
  { threshold := thresholdMs * NS_PER_MS
    currentSkipList := SkipSet.empty
    flowGraph := Table.empty
    onBlockedCallbacks := []
    skipContext := false
    state := Table.empty
    timings := Table.empty
    useAsyncStackTraces := captureAsyncStackTraces
    depth := 0 }

/-- PerfAgent._asyncInit(asyncId, type, triggerAsyncId).  followsAsyncId is
    what AsyncHooks.triggerAsyncId() returns at the moment of the signal and
    capturedStack is what createStack(2) would capture; both are inputs
    provided by the host runtime. -/
def asyncInit (s : AgentState) (asyncId : AsyncId) (ty : String)
    (triggerAsyncId : AsyncId) (followsAsyncId : AsyncId)
    (capturedStack : List Frame) : AgentState :=
  if s.skipContext || s.currentSkipList.has triggerAsyncId
      || s.currentSkipList.has asyncId then
    { s with currentSkipList := s.currentSkipList.add asyncId }
  else
    let stack := if s.useAsyncStackTraces then capturedStack else []
    let node : FlowGraphNode := ⟨asyncId, followsAsyncId, stack, triggerAsyncId, ty⟩
    { s with flowGraph := s.flowGraph.set asyncId node }

/-- PerfAgent._asyncBefore(asyncId); now is process.hrtime() in nanoseconds. -/
def asyncBefore (s : AgentState) (asyncId : AsyncId) (now : Nat) : AgentState :=
  if s.currentSkipList.has asyncId then s
  else { s with depth := s.depth + 2, timings := s.timings.set asyncId now }

/-- The node the causal-path walk advances to from node:
    this._flowGraph.get(node.triggerAsyncId) ||
    this._flowGraph.get(node.followsAsyncId). -/
def nextNode (g : Table FlowGraphNode) (node : FlowGraphNode) :
    Option FlowGraphNode :=
  match g.get node.triggerAsyncId with
  | some n => some n
  | none => g.get node.followsAsyncId

/-- The while loop of PerfAgent._createStackSet, with explicit fuel; none
    means the loop was still running when the fuel ran out.  The source
    tracks no visited ids, so on a graph with a trigger/follows cycle the
    loop never finishes. -/
def causalPathWalk (g : Table FlowGraphNode) :
    Nat → Option FlowGraphNode → List (List Frame) → Option (List (List Frame))
  | _, none, segs => some segs
  | 0, some _, _ => none
  | fuel + 1, some node, segs =>
    let segs2 := if node.stack.length ≠ 0 then segs ++ [node.stack] else segs
    causalPathWalk g fuel (nextNode g node) segs2

/-- The nodes the walk visits, in order, within the given fuel. -/
def walkNodes (g : Table FlowGraphNode) :
    Nat → Option FlowGraphNode → List FlowGraphNode
  | _, none => []
  | 0, some _ => []
  | fuel + 1, some node => node :: walkNodes g fuel (nextNode g node)

/-- PerfAgent._createStackSet(asyncId, initialStack).  A JS array argument is
    always truthy, so an explicitly supplied empty initial stack still seeds
    the segment list; an omitted argument (none) seeds it empty. -/
def createStackSet (g : Table FlowGraphNode) (asyncId : AsyncId)
    (initialStack : Option (List Frame)) (fuel : Nat) :
    Option (List (List Frame)) :=
  let segs : List (List Frame) :=
    match initialStack with
    | some st => [st]
    | none => []
  causalPathWalk g fuel (g.get asyncId) segs

/-- What one _asyncAfter call produced: the successor state, the callbacks
    invoked, the event constructed (if any) and the error that propagated
    out of the hook (if any). -/
structure AfterResult where
  state : AgentState
  delivered : List CallbackId
  event : Option BlockedEvent
  error : Option JsError

/-- PerfAgent._asyncAfter(asyncId); now is process.hrtime() in nanoseconds.
    The delivery closure runs inside this.executeWithoutTracing, whose
    finally clause restores the skip flag before a subscriber error
    propagates; the propagated error then skips this._timings.delete, which
    sits after the delivery block, not in a finally.  The result is none
    when the causal-path walk inside the closure did not finish within
    fuel steps. -/
def asyncAfter (env : CallbackEnv) (fuel : Nat) (s : AgentState)
    (asyncId : AsyncId) (now : Nat) : Option AfterResult :=
  match s.timings.get asyncId with
  | none => some ⟨s, [], none, none⟩
  | some start =>
    let s0 := { s with depth := s.depth - 2 }
    let delta := now - start
    if s0.threshold < delta ∧ s0.onBlockedCallbacks ≠ [] then
      let s1 := { s0 with skipContext := true }
      match createStackSet s1.flowGraph asyncId none fuel with
      | none => none
      | some segs =>
        let event : BlockedEvent := ⟨delta, segs⟩
        let r := invokeCallbacks env s1.onBlockedCallbacks event
        let s2 := { s1 with skipContext := false }
        match r.2 with
        | some e => some ⟨s2, r.1, some event, some e⟩
        | none =>
          some ⟨{ s2 with timings := s2.timings.delete asyncId }, r.1,
            some event, none⟩
    else
      some ⟨{ s0 with timings := s0.timings.delete asyncId }, [], none, none⟩

/-- PerfAgent._asyncDestroy(asyncId): unconditional deletion from the skip
    list, the flow graph and the timing table. -/
def asyncDestroy (s : AgentState) (asyncId : AsyncId) : AgentState :=
  { s with currentSkipList := s.currentSkipList.delete asyncId
           flowGraph := s.flowGraph.delete asyncId
           timings := s.timings.delete asyncId }

/-- PerfAgent.executeWithoutTracing(cb).  isCallable embeds the
    typeof cb === 'function' check (the TypeError is thrown before any state
    is touched); the body reports the agent state it leaves behind and the
    error it throws, if any; the finally clause clears the flag either way. -/
def executeWithoutTracing (isCallable : Bool)
    (cb : AgentState → AgentState × Option JsError) (s : AgentState) :
    AgentState × Option JsError :=
  if isCallable then
    let r := cb { s with skipContext := true }
    ({ r.1 with skipContext := false }, r.2)
  else
    (s, some JsError.typeError)

/-- PerfAgent.onBlocked(cb) appends the callback to the ordered list. -/
def onBlocked (s : AgentState) (cb : CallbackId) : AgentState :=
  { s with onBlockedCallbacks := s.onBlockedCallbacks ++ [cb] }

/-- The dispose method of the handle onBlocked returns:
    removeCallback bound to the live list and the registered callback. -/
def dispose (s : AgentState) (cb : CallbackId) : AgentState :=
  { s with onBlockedCallbacks := removeCallback s.onBlockedCallbacks cb }

/-- One lifecycle signal delivered by the host runtime, carrying the
    runtime-provided inputs the corresponding hook reads. -/
inductive Signal where
  | created (asyncId : AsyncId) (ty : String)
      (triggerAsyncId followsAsyncId : AsyncId) (capturedStack : List Frame)
  | beforeRun (asyncId : AsyncId) (now : Nat)
  | afterRun (asyncId : AsyncId) (now : Nat) (fuel : Nat)
  | destroyed (asyncId : AsyncId)
  deriving DecidableEq

/-- Dispatch one signal to the corresponding hook.  A diverging after-run
    walk leaves the state unchanged, since the process then makes no further
    progress at all. -/
def stepSignal (env : CallbackEnv) (s : AgentState) : Signal → AgentState
  | .created id ty tr fo st => asyncInit s id ty tr fo st
  | .beforeRun id now => asyncBefore s id now
  | .afterRun id now fuel =>
    match asyncAfter env fuel s id now with
    | some r => r.state
    | none => s
  | .destroyed id => asyncDestroy s id

/-- Lookup of one key in one operation's context-state entry. -/
def entryLookup : List (String × JsVal) → String → Option JsVal
  | [], _ => none
  | (k', v') :: rest, k => if k' = k then some v' else entryLookup rest k

/-- Overwrite-or-append of one key in one operation's context-state entry. -/
def entryInsert : List (String × JsVal) → String → JsVal → List (String × JsVal)
  | [], k, v => [(k, v)]
  | (k', v') :: rest, k, v =>
    if k' = k then (k, v) :: rest else (k', v') :: entryInsert rest k v

/-- Modelled from the spec: PerfAgent declares the per-operation context table
    (this._state, src/unnamed/part_000 line 156) and the tests call
    agent.set, but the set method itself is not under src; spec section 4.7
    defines it: write into the ContextState entry for the currently executing
    operation id, creating the entry if absent. -/
def contextSet (s : AgentState) (currentId : AsyncId) (key : String)
    (v : JsVal) : AgentState :=
  let entry := (s.state.get currentId).getD []
  { s with state := s.state.set currentId (entryInsert entry key v) }

/-- Modelled from the spec: the get method is not under src either; spec
    section 4.7 defines it: starting at the current operation id, walk the
    causal chain (triggerId, then followsId, as in section 4.3, bounded by
    visited-id tracking) until an entry containing the key is found; return
    its value, or an absent result when the chain is exhausted. -/
def contextGet (s : AgentState) (key : String) :
    Nat → List AsyncId → AsyncId → Option JsVal
  | 0, _, _ => none
  | fuel + 1, visited, id =>
    if visited.contains id then none
    else
      match entryLookup ((s.state.get id).getD []) key with
      | some v => some v
      | none =>
        match s.flowGraph.get id with
        | none => none
        | some node =>
          match s.flowGraph.get node.triggerAsyncId with
          | some _ => contextGet s key fuel (id :: visited) node.triggerAsyncId
          | none =>
            match s.flowGraph.get node.followsAsyncId with
            | some _ =>
              contextGet s key fuel (id :: visited) node.followsAsyncId
            | none => none

/-- The causal chain of operation ids the context-state walk traverses,
    starting at the given id, advancing by triggerId then followsId,
    bounded by visited-id tracking and the same fuel as contextGet. -/
def contextChain (g : Table FlowGraphNode) :
    Nat → List AsyncId → AsyncId → List AsyncId
  | 0, _, _ => []
  | fuel + 1, visited, id =>
    if visited.contains id then []
    else
      id ::
        match g.get id with
        | none => []
        | some node =>
          match g.get node.triggerAsyncId with
          | some _ => contextChain g fuel (id :: visited) node.triggerAsyncId
          | none =>
            match g.get node.followsAsyncId with
            | some _ => contextChain g fuel (id :: visited) node.followsAsyncId
            | none => []

/-- The nearest-ancestor read the spec describes declaratively: the value of
    the key at the first operation along the causal chain whose entry
    contains it. -/
def nearestAncestorValue (s : AgentState) (key : String) :
    List AsyncId → Option JsVal
  | [] => none
  | i :: rest =>
    match entryLookup ((s.state.get i).getD []) key with
    | some v => some v
    | none => nearestAncestorValue s key rest

/- Basic lemmas about the embedded Map and Set operations. -/

theorem Table.get_set_self {V : Type} (m : Table V) (k : AsyncId) (v : V) :
    (m.set k v).get k = some v := by
  simp [Table.get, Table.set]

theorem Table.get_set_ne {V : Type} (m : Table V) (k x : AsyncId) (v : V)
    (h : x ≠ k) : (m.set k v).get x = m.get x := by
  simp [Table.get, Table.set, h]

theorem Table.get_delete_self {V : Type} (m : Table V) (k : AsyncId) :
    (m.delete k).get k = none := by
  simp [Table.get, Table.delete]

theorem Table.get_delete_ne {V : Type} (m : Table V) (k x : AsyncId)
    (h : x ≠ k) : (m.delete k).get x = m.get x := by
  simp [Table.get, Table.delete, h]

theorem Table.delete_twice {V : Type} (m : Table V) (k : AsyncId) :
    (m.delete k).delete k = m.delete k := by
  funext x
  unfold Table.delete
  by_cases hx : x = k
  · simp [hx]
  · simp [hx]

theorem Table.delete_of_get_none {V : Type} (m : Table V) (k : AsyncId)
    (h : m.get k = none) : m.delete k = m := by
  funext x
  unfold Table.delete
  by_cases hx : x = k
  · subst hx
    rw [if_pos rfl]
    exact h.symm
  · rw [if_neg hx]

theorem SkipSet.has_add_self (s : SkipSet) (k : AsyncId) :
    (s.add k).has k = true := by
  simp [SkipSet.has, SkipSet.add]

theorem SkipSet.has_add_of_has (s : SkipSet) (k x : AsyncId)
    (h : s.has x = true) : (s.add k).has x = true := by
  by_cases hx : x = k <;> simp [SkipSet.has, SkipSet.add, hx] at h ⊢ <;> exact h

theorem SkipSet.has_add_iff (s : SkipSet) (k x : AsyncId) :
    (s.add k).has x = true ↔ x = k ∨ s.has x = true := by
  by_cases hx : x = k <;> simp [SkipSet.has, SkipSet.add, hx]

theorem SkipSet.has_delete_ne (s : SkipSet) (k x : AsyncId) (h : x ≠ k) :
    (s.delete k).has x = s.has x := by
  simp [SkipSet.has, SkipSet.delete, h]

theorem SkipSet.delete_twice_skip (s : SkipSet) (k : AsyncId) :
    (s.delete k).delete k = s.delete k := by
  funext x
  simp [SkipSet.delete]

theorem SkipSet.delete_of_not_has (s : SkipSet) (k : AsyncId)
    (h : s.has k = false) : s.delete k = s := by
  funext x
  unfold SkipSet.delete
  by_cases hx : x = k
  · subst hx
    rw [if_pos rfl]
    exact h.symm
  · rw [if_neg hx]

/- Lemmas about the subscriber delivery loop. -/

theorem invokeCallbacks_all_ok (env : CallbackEnv) (ev : BlockedEvent) :
    ∀ cbs : List CallbackId, (∀ cb ∈ cbs, env cb ev = none) →
      invokeCallbacks env cbs ev = (cbs, none) := by
  intro cbs
  induction cbs with
  | nil => intro _; rfl
  | cons c rest ih =>
    intro h
    have hc : env c ev = none := h c (List.mem_cons_self c rest)
    have hrest : ∀ cb ∈ rest, env cb ev = none := by
      intro cb hcb
      exact h cb (List.mem_cons_of_mem c hcb)
    simp [invokeCallbacks, hc, ih hrest]

theorem invokeCallbacks_first_error (env : CallbackEnv) (ev : BlockedEvent)
    (bad : CallbackId) (e : JsError) (post : List CallbackId) :
    ∀ pre : List CallbackId, (∀ cb ∈ pre, env cb ev = none) →
      env bad ev = some e →
      invokeCallbacks env (pre ++ bad :: post) ev = (pre ++ [bad], some e) := by
  intro pre
  induction pre with
  | nil =>
    intro _ hbad
    simp [invokeCallbacks, hbad]
  | cons c rest ih =>
    intro h hbad
    have hc : env c ev = none := h c (List.mem_cons_self c rest)
    have hrest : ∀ cb ∈ rest, env cb ev = none := by
      intro cb hcb
      exact h cb (List.mem_cons_of_mem c hcb)
    simp [invokeCallbacks, hc, ih hrest hbad]

theorem invokeCallbacks_invoked_mem (env : CallbackEnv) (ev : BlockedEvent) :
    ∀ cbs : List CallbackId, ∀ x ∈ (invokeCallbacks env cbs ev).1, x ∈ cbs := by
  intro cbs
  induction cbs with
  | nil => intro x hx; simpa [invokeCallbacks] using hx
  | cons c rest ih =>
    intro x hx
    unfold invokeCallbacks at hx
    cases hc : env c ev with
    | some e =>
      rw [hc] at hx
      simp at hx
      simp [hx]
    | none =>
      rw [hc] at hx
      simp at hx
      cases hx with
      | inl h => simp [h]
      | inr h => exact List.mem_cons_of_mem c (ih x h)

/- Lemmas about removeCallback. -/

theorem removeCallback_of_not_mem (cb : CallbackId) :
    ∀ l : List CallbackId, cb ∉ l → removeCallback l cb = l := by
  intro l
  induction l with
  | nil => intro _; rfl
  | cons c rest ih =>
    intro h
    have hc : c ≠ cb := by
      intro hcc
      exact h (by simp [hcc])
    have hrest : cb ∉ rest := by
      intro hm
      exact h (List.mem_cons_of_mem c hm)
    simp [removeCallback, hc, ih hrest]

theorem removeCallback_count (cb : CallbackId) :
    ∀ l : List CallbackId, (removeCallback l cb).count cb = l.count cb - 1 := by
  intro l
  induction l with
  | nil => simp [removeCallback]
  | cons c rest ih =>
    by_cases hc : c = cb
    · subst hc
      simp [removeCallback, List.count_cons]
    · simp [removeCallback, hc, List.count_cons, ih]


/- Lemmas about the causal-path walk. -/

theorem causalPathWalk_segs_nonempty (g : Table FlowGraphNode) :
    ∀ (fuel : Nat) (cur : Option FlowGraphNode) (acc res : List (List Frame)),
      causalPathWalk g fuel cur acc = some res →
      (∀ seg ∈ acc, seg ≠ []) → ∀ seg ∈ res, seg ≠ [] := by
  intro fuel
  induction fuel with
  | zero =>
    intro cur acc res h hacc
    cases cur with
    | none =>
      simp [causalPathWalk] at h
      subst h
      exact hacc
    | some node => simp [causalPathWalk] at h
  | succ f ih =>
    intro cur acc res h hacc
    cases cur with
    | none =>
      simp [causalPathWalk] at h
      subst h
      exact hacc
    | some node =>
      unfold causalPathWalk at h
      by_cases hs : node.stack.length ≠ 0
      · rw [if_pos hs] at h
        refine ih (nextNode g node) (acc ++ [node.stack]) res h ?_
        intro seg hseg
        rcases List.mem_append.mp hseg with hl | hr
        · exact hacc seg hl
        · have : seg = node.stack := by simpa using hr
          subst this
          intro hnil
          exact hs (by simp [hnil])
      · rw [if_neg hs] at h
        exact ih (nextNode g node) acc res h hacc

theorem causalPathWalk_all_empty (g : Table FlowGraphNode) :
    ∀ (fuel : Nat) (cur : Option FlowGraphNode) (acc res : List (List Frame)),
      (∀ n ∈ walkNodes g fuel cur, n.stack = []) →
      causalPathWalk g fuel cur acc = some res → res = acc := by
  intro fuel
  induction fuel with
  | zero =>
    intro cur acc res hn h
    cases cur with
    | none =>
      simp [causalPathWalk] at h
      exact h.symm
    | some node => simp [causalPathWalk] at h
  | succ f ih =>
    intro cur acc res hn h
    cases cur with
    | none =>
      simp [causalPathWalk] at h
      exact h.symm
    | some node =>
      have hnode : node.stack = [] :=
        hn node (by simp [walkNodes])
      unfold causalPathWalk at h
      rw [if_neg (by simp [hnode])] at h
      refine ih (nextNode g node) acc res ?_ h
      intro n hmem
      exact hn n (by simp [walkNodes, hmem])

theorem causalPathWalk_wf_aux (g : Table FlowGraphNode)
    (hcons : ∀ id n, g.get id = some n → n.asyncId = id)
    (hwf : ∀ id n, g.get id = some n →
      n.triggerAsyncId < id ∧ n.followsAsyncId < id) :
    ∀ (fuel : Nat) (cur : Option FlowGraphNode),
      (∀ n, cur = some n → g.get n.asyncId = some n ∧ n.asyncId < fuel) →
      (∀ acc, ∃ res, causalPathWalk g fuel cur acc = some res) ∧
      ((walkNodes g fuel cur).map FlowGraphNode.asyncId).Sorted (· > ·) ∧
      (∀ j ∈ (walkNodes g fuel cur).map FlowGraphNode.asyncId,
        ∀ n, cur = some n → j ≤ n.asyncId) := by
  intro fuel
  induction fuel with
  | zero =>
    intro cur hcur
    cases cur with
    | none => simp [causalPathWalk, walkNodes]
    | some n => exact absurd (hcur n rfl).2 (Nat.not_lt_zero _)
  | succ f ih =>
    intro cur hcur
    cases cur with
    | none => simp [causalPathWalk, walkNodes]
    | some n =>
      have hn := hcur n rfl
      have hb := hwf n.asyncId n hn.1
      have hnext : ∀ m, nextNode g n = some m →
          g.get m.asyncId = some m ∧ m.asyncId < f := by
        intro m hm
        unfold nextNode at hm
        cases htr : g.get n.triggerAsyncId with
        | some m' =>
          rw [htr] at hm
          have hm2 : m' = m := Option.some_inj.mp hm
          subst hm2
          have hid : m'.asyncId = n.triggerAsyncId := hcons _ _ htr
          constructor
          · rw [hid]; exact htr
          · rw [hid]
            have h1 : n.triggerAsyncId < n.asyncId := hb.1
            have h2 : n.asyncId ≤ f := Nat.lt_succ_iff.mp hn.2
            exact Nat.lt_of_lt_of_le h1 h2
        | none =>
          rw [htr] at hm
          have hid : m.asyncId = n.followsAsyncId := hcons _ _ hm
          constructor
          · rw [hid]; exact hm
          · rw [hid]
            have h1 : n.followsAsyncId < n.asyncId := hb.2
            have h2 : n.asyncId ≤ f := Nat.lt_succ_iff.mp hn.2
            exact Nat.lt_of_lt_of_le h1 h2
      obtain ⟨ihEx, ihSorted, ihBound⟩ := ih (nextNode g n) hnext
      have hlt : ∀ j ∈ (walkNodes g f (nextNode g n)).map FlowGraphNode.asyncId,
          j < n.asyncId := by
        intro j hj
        cases hnn : nextNode g n with
        | none =>
          rw [hnn] at hj
          simp [walkNodes] at hj
        | some m =>
          rw [hnn] at hj
          have hjm : j ≤ m.asyncId := ihBound j (by rw [hnn]; exact hj) m hnn
          have hm := hnext m hnn
          have hmn : m.asyncId < n.asyncId := by
            unfold nextNode at hnn
            cases htr : g.get n.triggerAsyncId with
            | some m' =>
              rw [htr] at hnn
              cases hnn
              have hid : m.asyncId = n.triggerAsyncId := hcons _ _ htr
              rw [hid]; exact hb.1
            | none =>
              rw [htr] at hnn
              have hid : m.asyncId = n.followsAsyncId := hcons _ _ hnn
              rw [hid]; exact hb.2
          exact Nat.lt_of_le_of_lt hjm hmn
      refine ⟨?_, ?_, ?_⟩
      · intro acc
        unfold causalPathWalk
        exact ihEx _
      · have : (walkNodes g (f + 1) (some n)).map FlowGraphNode.asyncId =
            n.asyncId :: (walkNodes g f (nextNode g n)).map FlowGraphNode.asyncId := by
          simp [walkNodes]
        rw [this]
        exact List.sorted_cons.mpr ⟨fun b hb' => hlt b hb', ihSorted⟩
      · intro j hj m hm
        cases hm
        simp [walkNodes] at hj
        rcases hj with hj | hj
        · exact Nat.le_of_eq hj
        · exact Nat.le_of_lt (hlt j (by simpa using hj))

/- Structural facts about _asyncAfter: it never modifies the skip list, the
   flow graph, the subscriber list or the context-state table. -/

theorem asyncAfter_preserves (env : CallbackEnv) (fuel : Nat) (s : AgentState)
    (asyncId : AsyncId) (now : Nat) (r : AfterResult)
    (h : asyncAfter env fuel s asyncId now = some r) :
    r.state.currentSkipList = s.currentSkipList ∧
    r.state.flowGraph = s.flowGraph ∧
    r.state.onBlockedCallbacks = s.onBlockedCallbacks ∧
    r.state.state = s.state := by
  unfold asyncAfter at h
  split at h
  · injection h with h
    subst h
    exact ⟨rfl, rfl, rfl, rfl⟩
  · dsimp only at h
    split at h
    · split at h
      · exact absurd h (by simp)
      · split at h
        · injection h with h
          subst h
          exact ⟨rfl, rfl, rfl, rfl⟩
        · injection h with h
          subst h
          exact ⟨rfl, rfl, rfl, rfl⟩
    · injection h with h
      subst h
      exact ⟨rfl, rfl, rfl, rfl⟩

/- Concrete objects used by witnesses and counterexamples. -/

/-- An environment in which every subscriber callback returns normally. -/
def envAllOk : CallbackEnv := fun _ _ => none

/-- An environment in which subscriber 0 throws and every other subscriber
    returns normally. -/
def envFail : CallbackEnv :=
  fun cb _ => if cb = 0 then some (JsError.userError 7) else none

/-- A throwaway event used to exercise delivery. -/
def evX : BlockedEvent := ⟨0, []⟩

/-- C7: for every operation id, a finished-running signal with no open timing
    window is a no-op that raises no error and changes no engine state; a
    destroyed signal removes the id from SkipSet, FlowGraph and TimingTable
    unconditionally, a destroy for an unknown id is a benign no-op, and
    destroy is idempotent. -/
theorem after_noop_and_destroy_idempotent :
    (∀ (env : CallbackEnv) (fuel : Nat) (s : AgentState) (id : AsyncId) (now : Nat),
      s.timings.get id = none →
      asyncAfter env fuel s id now = some ⟨s, [], none, none⟩) ∧
    (∀ (s : AgentState) (id : AsyncId),
      (asyncDestroy s id).currentSkipList.has id = false ∧
      (asyncDestroy s id).flowGraph.get id = none ∧
      (asyncDestroy s id).timings.get id = none) ∧
    (∀ (s : AgentState) (id : AsyncId),
      asyncDestroy (asyncDestroy s id) id = asyncDestroy s id) ∧
    (∀ (s : AgentState) (id : AsyncId),
      s.currentSkipList.has id = false → s.flowGraph.get id = none →
      s.timings.get id = none → asyncDestroy s id = s) := by
  refine ⟨?_, ?_, ?_, ?_⟩
  · intro env fuel s id now h
    unfold asyncAfter
    rw [h]
  · intro s id
    refine ⟨?_, ?_, ?_⟩
    · simp [asyncDestroy, SkipSet.has, SkipSet.delete]
    · exact Table.get_delete_self s.flowGraph id
    · exact Table.get_delete_self s.timings id
  · intro s id
    unfold asyncDestroy
    simp only [Table.delete_twice, SkipSet.delete_twice_skip]
  · intro s id h1 h2 h3
    unfold asyncDestroy
    rw [SkipSet.delete_of_not_has s.currentSkipList id h1,
      Table.delete_of_get_none s.flowGraph id h2,
      Table.delete_of_get_none s.timings id h3]

theorem after_noop_and_destroy_idempotent_witness :
    (mkAgent 5 false).timings.get 3 = none ∧
    asyncAfter envAllOk 0 (mkAgent 5 false) 3 9 = some ⟨mkAgent 5 false, [], none, none⟩ ∧
    asyncDestroy (mkAgent 5 false) 3 = mkAgent 5 false := by
  refine ⟨rfl, ?_, ?_⟩
  · exact after_noop_and_destroy_idempotent.1 envAllOk 0 (mkAgent 5 false) 3 9 rfl
  · exact after_noop_and_destroy_idempotent.2.2.2 (mkAgent 5 false) 3 rfl rfl rfl

/-- C9 counterexample: the same callback instance registered twice; disposing
    the second handle removes only the first occurrence, so the callback is
    still on the list and is still invoked on the next delivery; calling a
    handle's dispose a second time then removes the remaining occurrence,
    so the second dispose is not a no-op. -/
theorem duplicate_registration_dispose_keeps_callback :
    (dispose (onBlocked (onBlocked (mkAgent 1 false) 7) 7) 7).onBlockedCallbacks = [7] ∧
    7 ∈ (invokeCallbacks envAllOk
      (dispose (onBlocked (onBlocked (mkAgent 1 false) 7) 7) 7).onBlockedCallbacks evX).1 ∧
    (dispose (dispose (onBlocked (onBlocked (mkAgent 1 false) 7) 7) 7) 7).onBlockedCallbacks = [] := by
  decide

/-- C9 (amended): disposal removes the first occurrence of that callback from
    the subscriber list; when the callback is registered at most once it is
    gone afterwards, receives no subsequent BlockedEvent, and disposing again
    is a no-op; disposing when the callback is absent is always a no-op and
    raises no error.  (When the identical callback instance is registered
    more than once, one dispose leaves the other registrations in place.) -/
theorem dispose_removes_single_registration (s : AgentState) (cb : CallbackId)
    (h : s.onBlockedCallbacks.count cb ≤ 1) :
    (dispose s cb).onBlockedCallbacks.count cb = 0 ∧
    (∀ (env : CallbackEnv) (ev : BlockedEvent),
      cb ∉ (invokeCallbacks env (dispose s cb).onBlockedCallbacks ev).1) ∧
    dispose (dispose s cb) cb = dispose s cb ∧
    (cb ∉ s.onBlockedCallbacks → dispose s cb = s) := by
  have hlist : (dispose s cb).onBlockedCallbacks =
      removeCallback s.onBlockedCallbacks cb := rfl
  have hzero : (dispose s cb).onBlockedCallbacks.count cb = 0 := by
    have hrc := removeCallback_count cb s.onBlockedCallbacks
    rw [hlist, hrc]
    omega
  have hout : cb ∉ (dispose s cb).onBlockedCallbacks :=
    List.count_eq_zero.mp hzero
  refine ⟨hzero, ?_, ?_, ?_⟩
  · intro env ev hmem
    exact hout (invokeCallbacks_invoked_mem env ev _ cb hmem)
  · have hstep : dispose (dispose s cb) cb =
        { dispose s cb with onBlockedCallbacks := removeCallback (dispose s cb).onBlockedCallbacks cb } :=
      rfl
    rw [hstep, removeCallback_of_not_mem cb _ hout]
  · intro hnm
    have hstep : dispose s cb =
        { s with onBlockedCallbacks := removeCallback s.onBlockedCallbacks cb } :=
      rfl
    rw [hstep, removeCallback_of_not_mem cb _ hnm]

theorem dispose_removes_single_registration_witness :
    (onBlocked (mkAgent 1 false) 3).onBlockedCallbacks.count 3 ≤ 1 ∧
    (dispose (onBlocked (mkAgent 1 false) 3) 3).onBlockedCallbacks.count 3 = 0 ∧
    3 ∉ (invokeCallbacks envAllOk
      (dispose (onBlocked (mkAgent 1 false) 3) 3).onBlockedCallbacks evX).1 := by
  refine ⟨by decide, ?_, ?_⟩
  · exact (dispose_removes_single_registration (onBlocked (mkAgent 1 false) 3) 3 (by decide)).1
  · exact (dispose_removes_single_registration (onBlocked (mkAgent 1 false) 3) 3
      (by decide)).2.1 envAllOk evX

/-- C2 counterexample: with subscribers 0 and 1 registered in that order and
    subscriber 0 throwing, the for-of delivery loop propagates the error at
    once; subscriber 1 is never invoked with the event, refuting the claim
    that later-registered subscribers are still invoked. -/
theorem subscriber_throw_skips_later_subscriber :
    invokeCallbacks envFail [0, 1] evX = ([0], some (JsError.userError 7)) ∧
    1 ∉ (invokeCallbacks envFail [0, 1] evX).1 := by
  decide

/-- C2 (amended): subscriber errors are surfaced, not swallowed, but
    delivery is not independent per subscriber: the loop invokes subscribers
    in registration order until the first one that throws, the error then
    propagates and every later-registered subscriber is skipped for that
    delivery; when no subscriber throws, all are invoked in order. -/
theorem invokeCallbacks_order_and_first_error (env : CallbackEnv)
    (ev : BlockedEvent) :
    (∀ cbs : List CallbackId, (∀ cb ∈ cbs, env cb ev = none) →
      invokeCallbacks env cbs ev = (cbs, none)) ∧
    (∀ (pre post : List CallbackId) (bad : CallbackId) (e : JsError),
      (∀ cb ∈ pre, env cb ev = none) → env bad ev = some e →
      invokeCallbacks env (pre ++ bad :: post) ev = (pre ++ [bad], some e)) :=
  ⟨invokeCallbacks_all_ok env ev,
    fun pre post bad e hpre hbad =>
      invokeCallbacks_first_error env ev bad e post pre hpre hbad⟩

theorem invokeCallbacks_order_and_first_error_witness :
    invokeCallbacks envAllOk [4, 5] evX = ([4, 5], none) ∧
    invokeCallbacks envFail [2, 0, 9] evX = ([2, 0], some (JsError.userError 7)) := by
  constructor
  · exact (invokeCallbacks_order_and_first_error envAllOk evX).1 [4, 5]
      (by intro cb _; rfl)
  · exact (invokeCallbacks_order_and_first_error envFail evX).2 [2] [9] 0
      (JsError.userError 7) (by decide) (by decide)

/- Helper facts about _asyncInit shared by the SkipSet claims. -/

theorem asyncInit_skip_branch (s : AgentState) (id : AsyncId) (ty : String)
    (tr fo : AsyncId) (st : List Frame)
    (h : s.skipContext = true ∨ s.currentSkipList.has tr = true ∨
      s.currentSkipList.has id = true) :
    asyncInit s id ty tr fo st =
      { s with currentSkipList := s.currentSkipList.add id } := by
  have hc : (s.skipContext || s.currentSkipList.has tr
      || s.currentSkipList.has id) = true := by
    rcases h with h | h | h <;> simp [h]
  unfold asyncInit
  rw [if_pos hc]

/-- C5 counterexample: an operation whose follows ancestor (id 5) is in the
    SkipSet while neither its own id (10) nor its trigger (3) is: _asyncInit
    consults only the global flag, the trigger and the id itself, so the
    operation is inserted into the FlowGraph and is not added to the
    SkipSet, refuting exclusion propagation through the follows link. -/
theorem follows_ancestor_not_consulted :
    ({ mkAgent 1 false with currentSkipList := SkipSet.empty.add 5 } :
        AgentState).currentSkipList.has 5 = true ∧
    (asyncInit { mkAgent 1 false with currentSkipList := SkipSet.empty.add 5 }
        10 "T" 3 5 []).currentSkipList.has 10 = false ∧
    (asyncInit { mkAgent 1 false with currentSkipList := SkipSet.empty.add 5 }
        10 "T" 3 5 []).flowGraph.has 10 = true := by
  decide

/-- C5 (amended): SkipSet membership is monotonic until destruction (only a
    destroy signal for that id removes it) and exclusion propagates forward
    at creation time only: an id enters the SkipSet exactly at its own
    creation signal, which consults the global skip flag, the trigger
    ancestor and the id itself — but not the follows ancestor (see the
    counterexample) — and a skipped creation never touches the FlowGraph. -/
theorem skip_membership_monotonic_and_forward_only :
    (∀ (env : CallbackEnv) (s : AgentState) (sig : Signal) (id : AsyncId),
      s.currentSkipList.has id = true → sig ≠ Signal.destroyed id →
      (stepSignal env s sig).currentSkipList.has id = true) ∧
    (∀ (s : AgentState) (id : AsyncId) (ty : String) (tr fo : AsyncId)
        (st : List Frame),
      s.skipContext = true ∨ s.currentSkipList.has tr = true ∨
        s.currentSkipList.has id = true →
      (asyncInit s id ty tr fo st).currentSkipList.has id = true ∧
      (asyncInit s id ty tr fo st).flowGraph = s.flowGraph) ∧
    (∀ (env : CallbackEnv) (s : AgentState) (sig : Signal) (j : AsyncId),
      (stepSignal env s sig).currentSkipList.has j = true →
      s.currentSkipList.has j = true ∨
      ∃ ty tr fo st, sig = Signal.created j ty tr fo st) := by
  refine ⟨?_, ?_, ?_⟩
  · intro env s sig id h hne
    cases sig with
    | created id2 ty tr fo st =>
      show (asyncInit s id2 ty tr fo st).currentSkipList.has id = true
      unfold asyncInit
      split
      · exact SkipSet.has_add_of_has _ _ _ h
      · exact h
    | beforeRun id2 now =>
      show (asyncBefore s id2 now).currentSkipList.has id = true
      unfold asyncBefore
      split
      · exact h
      · exact h
    | afterRun id2 now fuel =>
      unfold stepSignal
      cases haa : asyncAfter env fuel s id2 now with
      | none => simp only [haa]; exact h
      | some r =>
        simp only [haa]
        rw [(asyncAfter_preserves env fuel s id2 now r haa).1]
        exact h
    | destroyed id2 =>
      have hj : id ≠ id2 := by
        intro hh
        exact hne (by rw [hh])
      have hd : (asyncDestroy s id2).currentSkipList =
          s.currentSkipList.delete id2 := rfl
      show (asyncDestroy s id2).currentSkipList.has id = true
      rw [hd, SkipSet.has_delete_ne s.currentSkipList id2 id hj]
      exact h
  · intro s id ty tr fo st h
    rw [asyncInit_skip_branch s id ty tr fo st h]
    exact ⟨SkipSet.has_add_self s.currentSkipList id, rfl⟩
  · intro env s sig j h
    cases sig with
    | created id2 ty tr fo st =>
      have hstep : stepSignal env s (Signal.created id2 ty tr fo st) =
          asyncInit s id2 ty tr fo st := rfl
      rw [hstep] at h
      unfold asyncInit at h
      split at h
      · have h2 : (s.currentSkipList.add id2).has j = true := h
        have hm := (SkipSet.has_add_iff s.currentSkipList id2 j).mp h2
        rcases hm with rfl | hm
        · exact Or.inr ⟨ty, tr, fo, st, rfl⟩
        · exact Or.inl hm
      · exact Or.inl h
    | beforeRun id2 now =>
      have hstep : stepSignal env s (Signal.beforeRun id2 now) =
          asyncBefore s id2 now := rfl
      rw [hstep] at h
      unfold asyncBefore at h
      split at h
      · exact Or.inl h
      · exact Or.inl h
    | afterRun id2 now fuel =>
      cases haa : asyncAfter env fuel s id2 now with
      | none =>
        have hstep : stepSignal env s (Signal.afterRun id2 now fuel) = s := by
          show (match asyncAfter env fuel s id2 now with
            | some r => r.state
            | none => s) = s
          rw [haa]
        rw [hstep] at h
        exact Or.inl h
      | some r =>
        have hstep : stepSignal env s (Signal.afterRun id2 now fuel) =
            r.state := by
          show (match asyncAfter env fuel s id2 now with
            | some r => r.state
            | none => s) = r.state
          rw [haa]
        rw [hstep] at h
        rw [(asyncAfter_preserves env fuel s id2 now r haa).1] at h
        exact Or.inl h
    | destroyed id2 =>
      have hd : stepSignal env s (Signal.destroyed id2) =
          asyncDestroy s id2 := rfl
      rw [hd] at h
      by_cases hj : j = id2
      · subst hj
        have hfalse : (asyncDestroy s j).currentSkipList.has j = false := by
          have hd2 : (asyncDestroy s j).currentSkipList =
              s.currentSkipList.delete j := rfl
          rw [hd2]
          simp [SkipSet.has, SkipSet.delete]
        rw [h] at hfalse
        exact absurd hfalse (by simp)
      · have heq : (asyncDestroy s id2).currentSkipList.has j =
            s.currentSkipList.has j := by
          have hd2 : (asyncDestroy s id2).currentSkipList =
              s.currentSkipList.delete id2 := rfl
          rw [hd2]
          exact SkipSet.has_delete_ne _ _ _ hj
        rw [heq] at h
        exact Or.inl h

theorem skip_membership_monotonic_witness :
    ({ mkAgent 1 false with currentSkipList := SkipSet.empty.add 4 } :
        AgentState).currentSkipList.has 4 = true ∧
    Signal.beforeRun 9 0 ≠ Signal.destroyed 4 ∧
    (stepSignal envAllOk
      { mkAgent 1 false with currentSkipList := SkipSet.empty.add 4 }
      (Signal.beforeRun 9 0)).currentSkipList.has 4 = true := by
  refine ⟨by decide, by decide, ?_⟩
  exact skip_membership_monotonic_and_forward_only.1 envAllOk
    { mkAgent 1 false with currentSkipList := SkipSet.empty.add 4 }
    (Signal.beforeRun 9 0) 4 (by decide) (by decide)

/-- C6: executeWithoutTracing raises a TypeError synchronously (before any
    state change) when its argument is not callable; otherwise it runs the
    body with the process-wide skip flag set, clears the flag whether the
    body returns or throws, and surfaces the body's error; every operation
    created while the flag is set — and every operation whose trigger
    ancestor is skipped — is added to the SkipSet and never inserted into
    the FlowGraph, and a skipped id stays out of the FlowGraph under every
    signal except its own destroy. -/
theorem executeWithoutTracing_excludes_created_operations :
    (∀ (cb : AgentState → AgentState × Option JsError) (s : AgentState),
      executeWithoutTracing false cb s = (s, some JsError.typeError)) ∧
    (∀ (cb : AgentState → AgentState × Option JsError) (s : AgentState),
      (executeWithoutTracing true cb s).1.skipContext = false) ∧
    (∀ (cb : AgentState → AgentState × Option JsError) (s : AgentState),
      (executeWithoutTracing true cb s).2 =
        (cb { s with skipContext := true }).2) ∧
    (∀ (s : AgentState) (id : AsyncId) (ty : String) (tr fo : AsyncId)
        (st : List Frame),
      s.skipContext = true →
      (asyncInit s id ty tr fo st).currentSkipList.has id = true ∧
      (asyncInit s id ty tr fo st).flowGraph = s.flowGraph) ∧
    (∀ (s : AgentState) (id : AsyncId) (ty : String) (tr fo : AsyncId)
        (st : List Frame),
      s.currentSkipList.has tr = true →
      (asyncInit s id ty tr fo st).currentSkipList.has id = true ∧
      (asyncInit s id ty tr fo st).flowGraph = s.flowGraph) ∧
    (∀ (env : CallbackEnv) (s : AgentState) (sig : Signal) (id : AsyncId),
      s.currentSkipList.has id = true → s.flowGraph.get id = none →
      sig ≠ Signal.destroyed id →
      (stepSignal env s sig).currentSkipList.has id = true ∧
      (stepSignal env s sig).flowGraph.get id = none) := by
  refine ⟨?_, ?_, ?_, ?_, ?_, ?_⟩
  · intro cb s
    rfl
  · intro cb s
    rfl
  · intro cb s
    rfl
  · intro s id ty tr fo st h
    rw [asyncInit_skip_branch s id ty tr fo st (Or.inl h)]
    exact ⟨SkipSet.has_add_self s.currentSkipList id, rfl⟩
  · intro s id ty tr fo st h
    rw [asyncInit_skip_branch s id ty tr fo st (Or.inr (Or.inl h))]
    exact ⟨SkipSet.has_add_self s.currentSkipList id, rfl⟩
  · intro env s sig id h hg hne
    cases sig with
    | created id2 ty tr fo st =>
      have hstep : stepSignal env s (Signal.created id2 ty tr fo st) =
          asyncInit s id2 ty tr fo st := rfl
      rw [hstep]
      by_cases hid : id2 = id
      · subst hid
        rw [asyncInit_skip_branch s id2 ty tr fo st (Or.inr (Or.inr h))]
        exact ⟨SkipSet.has_add_self s.currentSkipList id2, hg⟩
      · unfold asyncInit
        split
        · exact ⟨SkipSet.has_add_of_has _ _ _ h, hg⟩
        · refine ⟨h, ?_⟩
          have hset : (s.flowGraph.set id2
              ⟨id2, fo, if s.useAsyncStackTraces then st else [], tr, ty⟩).get id =
              s.flowGraph.get id :=
            Table.get_set_ne s.flowGraph id2 id _ (fun hh => hid hh.symm)
          exact hset.trans hg
    | beforeRun id2 now =>
      have hstep : stepSignal env s (Signal.beforeRun id2 now) =
          asyncBefore s id2 now := rfl
      rw [hstep]
      unfold asyncBefore
      split
      · exact ⟨h, hg⟩
      · exact ⟨h, hg⟩
    | afterRun id2 now fuel =>
      cases haa : asyncAfter env fuel s id2 now with
      | none =>
        have hstep : stepSignal env s (Signal.afterRun id2 now fuel) = s := by
          show (match asyncAfter env fuel s id2 now with
            | some r => r.state
            | none => s) = s
          rw [haa]
        rw [hstep]
        exact ⟨h, hg⟩
      | some r =>
        have hstep : stepSignal env s (Signal.afterRun id2 now fuel) =
            r.state := by
          show (match asyncAfter env fuel s id2 now with
            | some r => r.state
            | none => s) = r.state
          rw [haa]
        rw [hstep]
        obtain ⟨hsk, hfg, _, _⟩ := asyncAfter_preserves env fuel s id2 now r haa
        rw [hsk, hfg]
        exact ⟨h, hg⟩
    | destroyed id2 =>
      have hid : id ≠ id2 := by
        intro hh
        exact hne (by rw [hh])
      have hstep : stepSignal env s (Signal.destroyed id2) =
          asyncDestroy s id2 := rfl
      rw [hstep]
      constructor
      · have hd2 : (asyncDestroy s id2).currentSkipList =
            s.currentSkipList.delete id2 := rfl
        rw [hd2, SkipSet.has_delete_ne _ _ _ hid]
        exact h
      · have hd3 : (asyncDestroy s id2).flowGraph =
            s.flowGraph.delete id2 := rfl
        rw [hd3, Table.get_delete_ne _ _ _ hid]
        exact hg

theorem executeWithoutTracing_excludes_witness :
    executeWithoutTracing false (fun s => (s, none)) (mkAgent 2 false) =
      (mkAgent 2 false, some JsError.typeError) ∧
    ({ mkAgent 2 false with skipContext := true } : AgentState).skipContext = true ∧
    (asyncInit { mkAgent 2 false with skipContext := true } 11 "T" 1 1 []).currentSkipList.has 11 = true ∧
    (asyncInit { mkAgent 2 false with skipContext := true } 11 "T" 1 1 []).flowGraph =
      ({ mkAgent 2 false with skipContext := true } : AgentState).flowGraph := by
  refine ⟨?_, rfl, ?_, ?_⟩
  · exact executeWithoutTracing_excludes_created_operations.1
      (fun s => (s, none)) (mkAgent 2 false)
  · exact (executeWithoutTracing_excludes_created_operations.2.2.2.1
      { mkAgent 2 false with skipContext := true } 11 "T" 1 1 [] rfl).1
  · exact (executeWithoutTracing_excludes_created_operations.2.2.2.1
      { mkAgent 2 false with skipContext := true } 11 "T" 1 1 [] rfl).2

/- Concrete graphs for the causal-path walk claims. -/

/-- A self-referential FlowGraph entry: its trigger and follows links point
    back to its own id, the smallest possible trigger/follows cycle. -/
def cycNode : FlowGraphNode := ⟨1, 1, [], 1, "PROMISE"⟩

/-- A FlowGraph containing only the cyclic entry. -/
def cycGraph : Table FlowGraphNode := Table.empty.set 1 cycNode

/-- A two-entry graph whose causal links point to strictly smaller ids, as
    the runtime's monotone id assignment produces. -/
def nodeOne : FlowGraphNode := ⟨1, 0, [], 0, "TIMER"⟩

def nodeTwo : FlowGraphNode := ⟨2, 1, [], 1, "PROMISE"⟩

def gTwo : Table FlowGraphNode := (Table.empty.set 1 nodeOne).set 2 nodeTwo

theorem gTwo_cons : ∀ id n, gTwo.get id = some n → n.asyncId = id := by
  intro id n h
  by_cases h2 : id = 2
  · subst h2
    have hn : n = nodeTwo := by
      simpa [gTwo, Table.get, Table.set] using h.symm
    rw [hn]
    rfl
  · by_cases h1 : id = 1
    · subst h1
      have hn : n = nodeOne := by
        simpa [gTwo, Table.get, Table.set, Table.empty, h2] using h.symm
      rw [hn]
      rfl
    · exact absurd h (by simp [gTwo, Table.get, Table.set, Table.empty, h1, h2])

theorem gTwo_wf : ∀ id n, gTwo.get id = some n →
    n.triggerAsyncId < id ∧ n.followsAsyncId < id := by
  intro id n h
  by_cases h2 : id = 2
  · subst h2
    have hn : n = nodeTwo := by
      simpa [gTwo, Table.get, Table.set] using h.symm
    rw [hn]
    exact ⟨Nat.one_lt_two, Nat.one_lt_two⟩
  · by_cases h1 : id = 1
    · subst h1
      have hn : n = nodeOne := by
        simpa [gTwo, Table.get, Table.set, Table.empty, h2] using h.symm
      rw [hn]
      exact ⟨Nat.zero_lt_one, Nat.zero_lt_one⟩
    · exact absurd h (by simp [gTwo, Table.get, Table.set, Table.empty, h1, h2])

/-- C1 counterexample: on a FlowGraph containing a trigger/follows cycle the
    causal-path walk of _createStackSet never terminates and revisits the
    same operation id: the loop is still running after 5 steps (and, by the
    same reduction, after any number of steps), and the first two visited
    ids are both 1, refuting visits-each-id-at-most-once. -/
theorem cyclic_walk_revisits_and_never_finishes :
    createStackSet cycGraph 1 none 5 = none ∧
    (walkNodes cycGraph 2 (cycGraph.get 1)).map FlowGraphNode.asyncId = [1, 1] := by
  decide

/-- C1 (amended): the walk terminates and visits each operation id at most
    once on every FlowGraph whose entries are keyed consistently and whose
    trigger/follows links point to strictly smaller ids — which is what the
    runtime's monotonically assigned ids guarantee; id + 1 steps of fuel
    always suffice.  The source tracks no visited ids, so on malformed
    cyclic data the walk does not terminate (see the counterexample). -/
theorem causal_walk_terminates_and_nodup_on_wf_graph (g : Table FlowGraphNode)
    (hcons : ∀ id n, g.get id = some n → n.asyncId = id)
    (hwf : ∀ id n, g.get id = some n →
      n.triggerAsyncId < id ∧ n.followsAsyncId < id) (id : AsyncId) :
    (∃ res, createStackSet g id none (id + 1) = some res) ∧
    ((walkNodes g (id + 1) (g.get id)).map FlowGraphNode.asyncId).Nodup := by
  have hcur : ∀ n, g.get id = some n →
      g.get n.asyncId = some n ∧ n.asyncId < id + 1 := by
    intro n hn
    have he := hcons id n hn
    constructor
    · rw [he]; exact hn
    · rw [he]; exact Nat.lt_succ_self id
  obtain ⟨hex, hsorted, _⟩ :=
    causalPathWalk_wf_aux g hcons hwf (id + 1) (g.get id) hcur
  constructor
  · unfold createStackSet
    exact hex []
  · exact List.Pairwise.imp (fun hgt => ne_of_gt hgt) hsorted

theorem causal_walk_terminates_witness :
    createStackSet gTwo 2 none 3 = some [] ∧
    ((walkNodes gTwo 3 (gTwo.get 2)).map FlowGraphNode.asyncId).Nodup := by
  refine ⟨by decide, ?_⟩
  exact (causal_walk_terminates_and_nodup_on_wf_graph gTwo gTwo_cons gTwo_wf 2).2

/-- An agent state with one open timing window for id 1, one registered
    subscriber (id 0) and a 10 ns threshold. -/
def sC4 : AgentState :=
  { mkAgent 1 false with
      threshold := 10
      timings := Table.empty.set 1 0
      onBlockedCallbacks := [0] }

/-- C4 counterexample: subscriber 0 throws during delivery; because
    this._timings.delete sits after the executeWithoutTracing call rather
    than in a finally clause, the propagating error skips it.  After the
    after-run hook, the timing entry for id 1 is still present (some 0, not
    deleted), even though the suspension flag was cleared and the error
    surfaced — refuting "the TimingTable entry is deleted even when a
    subscriber callback raises an error". -/
theorem subscriber_error_leaves_timing_entry :
    (asyncAfter envFail 0 sC4 1 20).map
        (fun r => (r.state.timings.get 1, r.state.skipContext, r.error)) =
      some (some 0, false, some (JsError.userError 7)) := by
  decide

/-- C4 (amended): on every after-run delivery the tracing-suspension flag is
    cleared even when a subscriber throws (the finally clause of
    executeWithoutTracing); the TimingTable entry for the id is deleted
    whenever the hook finishes without a subscriber error (including the
    no-delivery paths), but when a subscriber throws the error propagates
    before this._timings.delete runs and the entry is left in place. -/
theorem asyncAfter_cleanup_on_subscriber_error (env : CallbackEnv)
    (fuel : Nat) (s : AgentState) (id : AsyncId) (now : Nat) (r : AfterResult)
    (h : asyncAfter env fuel s id now = some r) :
    (r.error.isSome = true →
      r.state.skipContext = false ∧
      r.state.timings.get id = s.timings.get id) ∧
    (r.error = none → r.state.timings.get id = none) := by
  unfold asyncAfter at h
  split at h
  · rename_i heq
    injection h with h
    subst h
    constructor
    · intro herr
      simp at herr
    · intro _
      exact heq
  · dsimp only at h
    split at h
    · split at h
      · exact absurd h (by simp)
      · split at h
        · injection h with h
          subst h
          constructor
          · intro _
            exact ⟨rfl, rfl⟩
          · intro hnone
            simp at hnone
        · injection h with h
          subst h
          constructor
          · intro herr
            simp at herr
          · intro _
            exact Table.get_delete_self _ _
    · injection h with h
      subst h
      constructor
      · intro herr
        simp at herr
      · intro _
        exact Table.get_delete_self _ _

/-- The concrete result of the throwing-subscriber delivery on sC4. -/
def rC4 : AfterResult :=
  (asyncAfter envFail 0 sC4 1 20).getD ⟨sC4, [], none, none⟩

theorem asyncAfter_cleanup_on_subscriber_error_witness :
    asyncAfter envFail 0 sC4 1 20 = some rC4 ∧
    rC4.error.isSome = true ∧
    rC4.state.skipContext = false ∧
    rC4.state.timings.get 1 = sC4.timings.get 1 := by
  have h : asyncAfter envFail 0 sC4 1 20 = some rC4 := rfl
  have hthm := asyncAfter_cleanup_on_subscriber_error envFail 0 sC4 1 20 rC4 h
  refine ⟨h, rfl, ?_, ?_⟩
  · exact (hthm.1 rfl).1
  · exact (hthm.1 rfl).2

/- Computed forms of the two _asyncAfter outcomes used by the threshold
   claims. -/

theorem asyncAfter_subthreshold (env : CallbackEnv) (fuel : Nat)
    (s : AgentState) (id : AsyncId) (start now : Nat)
    (hT : s.timings.get id = some start)
    (hle : now - start ≤ s.threshold) :
    asyncAfter env fuel s id now =
      some ⟨{ s with depth := s.depth - 2, timings := s.timings.delete id },
        [], none, none⟩ := by
  unfold asyncAfter
  rw [hT]
  dsimp only
  rw [if_neg (fun hc => absurd hc.1 (Nat.not_lt.mpr hle))]

theorem asyncAfter_over_threshold_ok (env : CallbackEnv) (fuel : Nat)
    (s : AgentState) (id : AsyncId) (start now : Nat)
    (segs : List (List Frame))
    (benign : ∀ cb ∈ s.onBlockedCallbacks, env cb ⟨now - start, segs⟩ = none)
    (hT : s.timings.get id = some start)
    (hgt : s.threshold < now - start)
    (hne : s.onBlockedCallbacks ≠ [])
    (hwalk : createStackSet s.flowGraph id none fuel = some segs) :
    asyncAfter env fuel s id now =
      some
        ⟨{ s with
            depth := s.depth - 2
            skipContext := false
            timings := s.timings.delete id },
          s.onBlockedCallbacks, some ⟨now - start, segs⟩, none⟩ := by
  have hinv := invokeCallbacks_all_ok env ⟨now - start, segs⟩
    s.onBlockedCallbacks benign
  unfold asyncAfter
  rw [hT]
  dsimp only
  rw [if_pos ⟨hgt, hne⟩, hwalk]
  dsimp only
  rw [hinv]

/-- One whole sub-threshold window: an about-to-run signal at t0 followed by
    a finished-running signal at t1 whose elapsed time is at or below the
    threshold delivers nothing and preserves the skip list and threshold. -/
theorem window_subthreshold_run (env : CallbackEnv) (s : AgentState)
    (id : AsyncId) (t0 t1 : Nat)
    (hs : s.currentSkipList.has id = false)
    (hle : t1 - t0 ≤ s.threshold) :
    ∃ r, asyncAfter env 0 (asyncBefore s id t0) id t1 = some r ∧
      r.delivered = [] ∧ r.event = none ∧
      r.state.currentSkipList = s.currentSkipList ∧
      r.state.threshold = s.threshold := by
  have hb : asyncBefore s id t0 =
      { s with depth := s.depth + 2, timings := s.timings.set id t0 } := by
    unfold asyncBefore
    rw [if_neg (by simp [hs])]
  have hT : (asyncBefore s id t0).timings.get id = some t0 := by
    rw [hb]
    exact Table.get_set_self _ _ _
  have hle2 : t1 - t0 ≤ (asyncBefore s id t0).threshold := by
    rw [hb]
    exact hle
  have ha := asyncAfter_subthreshold env 0 (asyncBefore s id t0) id t0 t1 hT hle2
  refine ⟨_, ha, rfl, rfl, ?_, ?_⟩
  · show (asyncBefore s id t0).currentSkipList = s.currentSkipList
    rw [hb]
  · show (asyncBefore s id t0).threshold = s.threshold
    rw [hb]

/-- C3: a synchronous window whose elapsed time strictly exceeds the
    threshold delivers, when at least one subscriber is registered, exactly
    one BlockedEvent — with duration equal to the elapsed nanoseconds, hence
    strictly above the threshold — to every registered subscriber, and the
    window is closed; a window at or below the threshold delivers nothing;
    two sequential sub-threshold windows deliver nothing even when their
    durations sum past the threshold, because each window is measured from
    its own recorded start; and the configured threshold is the constructor
    argument converted from milliseconds to nanoseconds. -/
theorem blocked_event_threshold_delivery (env : CallbackEnv)
    (benign : ∀ cb ev, env cb ev = none) :
    (∀ (s : AgentState) (id : AsyncId) (start now fuel : Nat)
        (segs : List (List Frame)),
      s.timings.get id = some start →
      s.threshold < now - start →
      s.onBlockedCallbacks ≠ [] →
      createStackSet s.flowGraph id none fuel = some segs →
      ∃ r, asyncAfter env fuel s id now = some r ∧
        r.delivered = s.onBlockedCallbacks ∧
        r.event = some ⟨now - start, segs⟩ ∧
        s.threshold < now - start ∧
        r.error = none ∧
        r.state.timings.get id = none) ∧
    (∀ (s : AgentState) (id : AsyncId) (start now fuel : Nat),
      s.timings.get id = some start →
      now - start ≤ s.threshold →
      asyncAfter env fuel s id now =
        some ⟨{ s with depth := s.depth - 2, timings := s.timings.delete id },
          [], none, none⟩) ∧
    (∀ (s : AgentState) (id1 id2 : AsyncId) (t0 t1 t2 t3 : Nat),
      s.currentSkipList.has id1 = false →
      s.currentSkipList.has id2 = false →
      t1 - t0 ≤ s.threshold →
      t3 - t2 ≤ s.threshold →
      s.threshold < (t1 - t0) + (t3 - t2) →
      ∃ r1 r2,
        asyncAfter env 0 (asyncBefore s id1 t0) id1 t1 = some r1 ∧
        r1.delivered = [] ∧ r1.event = none ∧
        asyncAfter env 0 (asyncBefore r1.state id2 t2) id2 t3 = some r2 ∧
        r2.delivered = [] ∧ r2.event = none) ∧
    (∀ (tMs : Nat) (b : Bool), (mkAgent tMs b).threshold = tMs * NS_PER_MS) := by
  refine ⟨?_, ?_, ?_, ?_⟩
  · intro s id start now fuel segs hT hgt hne hwalk
    have ha := asyncAfter_over_threshold_ok env fuel s id start now segs
      (fun cb _ => benign cb _) hT hgt hne hwalk
    refine ⟨_, ha, rfl, rfl, hgt, rfl, ?_⟩
    exact Table.get_delete_self _ _
  · intro s id start now fuel hT hle
    exact asyncAfter_subthreshold env fuel s id start now hT hle
  · intro s id1 id2 t0 t1 t2 t3 hs1 hs2 hle1 hle2 _
    obtain ⟨r1, ha1, hd1, he1, hsk1, hth1⟩ :=
      window_subthreshold_run env s id1 t0 t1 hs1 hle1
    have hs2b : r1.state.currentSkipList.has id2 = false := by
      rw [hsk1]
      exact hs2
    have hle2b : t3 - t2 ≤ r1.state.threshold := by
      rw [hth1]
      exact hle2
    obtain ⟨r2, ha2, hd2, he2, _, _⟩ :=
      window_subthreshold_run env r1.state id2 t2 t3 hs2b hle2b
    exact ⟨r1, r2, ha1, hd1, he1, ha2, hd2, he2⟩
  · intro tMs b
    rfl

/-- An agent state with one open window for id 1, subscriber 6 registered
    and a 10 ns threshold. -/
def sC3 : AgentState :=
  { mkAgent 1 false with
      threshold := 10
      timings := Table.empty.set 1 0
      onBlockedCallbacks := [6] }

/-- The concrete result of the over-threshold delivery on sC3. -/
def rC3 : AfterResult :=
  (asyncAfter envAllOk 0 sC3 1 20).getD ⟨sC3, [], none, none⟩

theorem blocked_event_threshold_delivery_witness :
    asyncAfter envAllOk 0 sC3 1 20 = some rC3 ∧
    rC3.delivered = [6] ∧
    rC3.event = some ⟨20, []⟩ ∧
    rC3.error = none ∧
    rC3.state.timings.get 1 = none := by
  obtain ⟨r, hr, hdel, hev, _, herr, htim⟩ :=
    (blocked_event_threshold_delivery envAllOk (fun _ _ => rfl)).1 sC3 1 0 20 0
      [] rfl (by decide) (by decide) rfl
  have hrc : r = rC3 := by
    have h2 : asyncAfter envAllOk 0 sC3 1 20 = some rC3 := rfl
    exact Option.some_inj.mp (hr.symm.trans h2)
  subst hrc
  exact ⟨hr, hdel, hev, herr, htim⟩

/-- The event an after-run delivery constructs carries exactly the segment
    list the causal-path walk produced from this._flowGraph with no initial
    stack. -/
theorem asyncAfter_event_segs (env : CallbackEnv) (fuel : Nat)
    (s : AgentState) (id : AsyncId) (now : Nat) (r : AfterResult)
    (ev : BlockedEvent) (h : asyncAfter env fuel s id now = some r)
    (hev : r.event = some ev) :
    createStackSet s.flowGraph id none fuel = some ev.stackSegs := by
  unfold asyncAfter at h
  split at h
  · injection h with h
    subst h
    simp at hev
  · dsimp only at h
    split at h
    · split at h
      · exact absurd h (by simp)
      · rename_i segs hseg
        split at h
        · injection h with h
          subst h
          have hev2 := Option.some_inj.mp hev
          rw [← hev2]
          exact hseg
        · injection h with h
          subst h
          have hev2 := Option.some_inj.mp hev
          rw [← hev2]
          exact hseg
    · injection h with h
      subst h
      simp at hev

/-- C10: every BlockedEvent the after-run path delivers has only non-empty
    stack segments — the walk appends a node's creation stack only when it
    is non-empty — and when every node on the walked causal chain has an
    empty captured stack (capture disabled for their whole lifetime) the
    delivered event's segment list is empty, so subscribers cannot rely on
    a first segment existing. -/
theorem delivered_event_segments_nonempty :
    (∀ (env : CallbackEnv) (fuel : Nat) (s : AgentState) (id : AsyncId)
        (now : Nat) (r : AfterResult) (ev : BlockedEvent),
      asyncAfter env fuel s id now = some r → r.event = some ev →
      ∀ seg ∈ ev.stackSegs, seg ≠ []) ∧
    (∀ (env : CallbackEnv) (fuel : Nat) (s : AgentState) (id : AsyncId)
        (now : Nat) (r : AfterResult) (ev : BlockedEvent),
      (∀ n ∈ walkNodes s.flowGraph fuel (s.flowGraph.get id), n.stack = []) →
      asyncAfter env fuel s id now = some r → r.event = some ev →
      ev.stackSegs = []) := by
  constructor
  · intro env fuel s id now r ev h hev
    have hseg := asyncAfter_event_segs env fuel s id now r ev h hev
    unfold createStackSet at hseg
    dsimp only at hseg
    exact causalPathWalk_segs_nonempty s.flowGraph fuel (s.flowGraph.get id)
      [] ev.stackSegs hseg (by intro seg hmem; simp at hmem)
  · intro env fuel s id now r ev hall h hev
    have hseg := asyncAfter_event_segs env fuel s id now r ev h hev
    unfold createStackSet at hseg
    dsimp only at hseg
    exact causalPathWalk_all_empty s.flowGraph fuel (s.flowGraph.get id)
      [] ev.stackSegs hall hseg

/-- An agent state with an open window for id 1 (started at 5 ns), one
    subscriber and a 10 ns threshold; stack capture was never enabled, so
    the flow graph carries no stacks at all. -/
def sTen : AgentState :=
  { mkAgent 1 false with
      threshold := 10
      timings := Table.empty.set 1 5
      onBlockedCallbacks := [0] }

/-- The concrete result of the over-threshold delivery on sTen. -/
def rTen : AfterResult :=
  (asyncAfter envAllOk 1 sTen 1 100).getD ⟨sTen, [], none, none⟩

theorem delivered_event_segments_nonempty_witness :
    asyncAfter envAllOk 1 sTen 1 100 = some rTen ∧
    rTen.event = some ⟨95, []⟩ ∧
    (⟨95, []⟩ : BlockedEvent).stackSegs = [] := by
  refine ⟨rfl, rfl, ?_⟩
  exact delivered_event_segments_nonempty.2 envAllOk 1 sTen 1 100 rTen
    ⟨95, []⟩ (by intro n hmem; simp [sTen, mkAgent, Table.get, Table.empty, walkNodes] at hmem)
    rfl rfl

/-- Inserting a key always makes it the looked-up value of that key. -/
theorem entryLookup_insert (e : List (String × JsVal)) (k : String)
    (v : JsVal) : entryLookup (entryInsert e k v) k = some v := by
  induction e with
  | nil => simp [entryInsert, entryLookup]
  | cons p rest ih =>
    obtain ⟨k2, v2⟩ := p
    by_cases hk : k2 = k
    · subst hk
      simp [entryInsert, entryLookup]
    · simp [entryInsert, entryLookup, hk, ih]

/-- Unfolding of the nearest-ancestor read on a non-empty chain. -/
theorem nearestAncestorValue_cons (s : AgentState) (k : String) (i : AsyncId)
    (rest : List AsyncId) :
    nearestAncestorValue s k (i :: rest) =
      match entryLookup ((s.state.get i).getD []) k with
      | some v => some v
      | none => nearestAncestorValue s k rest := rfl

/-- C8: a get of key k at the operation that just set k to v returns v; and
    in general the walking read is exactly the nearest-ancestor lookup the
    spec describes — the value of k at the first operation along the causal
    chain (trigger first, follows as fallback) whose entry contains k, or an
    absent result when no operation on the chain has set k. -/
theorem contextGet_nearest_ancestor :
    (∀ (s : AgentState) (cur : AsyncId) (k : String) (v : JsVal) (fuel : Nat),
      contextGet (contextSet s cur k v) k (fuel + 1) [] cur = some v) ∧
    (∀ (s : AgentState) (k : String) (fuel : Nat) (visited : List AsyncId)
        (id : AsyncId),
      contextGet s k fuel visited id =
        nearestAncestorValue s k (contextChain s.flowGraph fuel visited id)) := by
  constructor
  · intro s cur k v fuel
    have hentry : ((contextSet s cur k v).state.get cur).getD [] =
        entryInsert ((s.state.get cur).getD []) k v := by
      show ((s.state.set cur
        (entryInsert ((s.state.get cur).getD []) k v)).get cur).getD [] = _
      rw [Table.get_set_self]
      rfl
    unfold contextGet
    rw [if_neg (by simp), hentry, entryLookup_insert]
  · intro s k fuel
    induction fuel with
    | zero =>
      intro visited id
      rfl
    | succ f ih =>
      intro visited id
      by_cases hvis : visited.contains id = true
      · unfold contextGet contextChain
        rw [if_pos hvis, if_pos hvis]
        rfl
      · unfold contextGet contextChain
        rw [if_neg hvis, if_neg hvis, nearestAncestorValue_cons]
        cases hE : entryLookup ((s.state.get id).getD []) k with
        | some v => rfl
        | none =>
          cases hN : s.flowGraph.get id with
          | none => rfl
          | some node =>
            dsimp only
            cases hTr : s.flowGraph.get node.triggerAsyncId with
            | some n2 => exact ih (id :: visited) node.triggerAsyncId
            | none =>
              dsimp only
              cases hF : s.flowGraph.get node.followsAsyncId with
              | some n3 => exact ih (id :: visited) node.followsAsyncId
              | none => rfl
